import Mathlib

/-!
# csv-wrangler — a verification development

A shallow embedding of the row-transformation library in `src/lib/api.ts`,
`src/lib/dsl.ts` and `src/lib/wrangler.ts` (plus the revisions of `api.ts`
shipped alongside them), together with proofs of the behavioural properties
stated in the design document.

Modelling conventions:
* A JavaScript string is a sequence of UTF-16 code units, modelled as
  `List Nat`.  `String.prototype.toLowerCase`/`toUpperCase` are modelled on
  the ASCII range (`A`–`Z` ↔ `a`–`z`); all string literals occurring in the
  repository and its tests are ASCII.
* JavaScript numbers are modelled as exact rationals (`ℚ`); every numeric
  literal appearing in the repository's data is exactly representable as a
  binary double, so no rounding behaviour is observable in the properties
  proved here.  `Number(string)` is modelled on finite decimal numeric
  strings (sign, digits, decimal point); the `Infinity`/hex/binary forms,
  which never appear in the repository, are not modelled as parses.
* A thrown JavaScript `Error` is modelled as an `Except.error`; `titleCase`,
  whose only failure is an unconditional `TypeError`, returns an `Option`.
-/

namespace CsvWrangler

/-- A JavaScript string: a list of UTF-16 code units. -/
abbrev Str := List Nat

/-- Injects a Lean string literal as a list of code units (ASCII data only). -/
def str (s : String) : Str :=
  s.data.map Char.toNat

/-- `String.prototype.toLowerCase`, ASCII range: maps `A`–`Z` to `a`–`z`. -/
def toLowerCU (u : Nat) : Nat :=
  if 65 ≤ u ∧ u ≤ 90 then u + 32 else u

/-- `String.prototype.toUpperCase`, ASCII range: maps `a`–`z` to `A`–`Z`. -/
def toUpperCU (u : Nat) : Nat :=
  if 97 ≤ u ∧ u ≤ 122 then u - 32 else u

/-- ASCII whitespace as trimmed by `Number(string)` (tab, LF, VT, FF, CR, space). -/
def isWsCU (u : Nat) : Bool :=
  u == 9 || u == 10 || u == 11 || u == 12 || u == 13 || u == 32

/-- `String.prototype.split(sep)` for a one-character separator: JavaScript
splits `""` into `[""]` and keeps empty pieces between adjacent separators. -/
def jsSplit (sep : Nat) : Str → List Str
  | [] => [[]]
  | c :: cs =>
    if c = sep then [] :: jsSplit sep cs
    else
      match jsSplit sep cs with
      | [] => [[c]]
      | w :: ws => (c :: w) :: ws

/-- `String.prototype.replace(pat, rep)` with a string pattern: replaces the
first occurrence of `pat` only, and returns the string unchanged when `pat`
does not occur. -/
def jsReplaceFirst (pat rep : Str) : Str → Str
  | [] => if pat = [] then rep else []
  | c :: cs =>
    if pat.isPrefixOf (c :: cs) then rep ++ (c :: cs).drop pat.length
    else c :: jsReplaceFirst pat rep cs

/-- `String.prototype.replace(/,/g, '')`: removes every comma (code unit 44). -/
def stripCommas (s : Str) : Str :=
  s.filter (fun u => u ≠ 44)

/-- Trims `Number`-style whitespace from both ends of a string. -/
def trimWs (s : Str) : Str :=
  ((s.dropWhile isWsCU).reverse.dropWhile isWsCU).reverse

/-- Value of a string of decimal digits. -/
def digitsToNat (ds : Str) : Nat :=
  ds.foldl (fun acc d => acc * 10 + (d - 48)) 0

/-- Decimal digit code units `0`–`9`. -/
def isDigitCU (u : Nat) : Bool :=
  48 ≤ u && u ≤ 57

/-- Parses an unsigned decimal numeric literal (`digits`, `digits.digits`,
`digits.`, `.digits`) to an exact rational; `none` models `NaN`. -/
def parseDec (s : Str) : Option ℚ :=
  let intPart := s.takeWhile isDigitCU
  let rest := s.dropWhile isDigitCU
  match rest with
  | [] => if intPart = [] then none else some (mkRat (digitsToNat intPart) 1)
  | 46 :: frac =>
    if frac.all isDigitCU ∧ (intPart ≠ [] ∨ frac ≠ []) then
      some (mkRat (digitsToNat intPart * 10 ^ frac.length + digitsToNat frac) (10 ^ frac.length))
    else none
  | _ => none

/-- JavaScript `Number(string)` on finite decimal numeric strings: trims
whitespace, converts the empty string to `0`, honours an optional sign;
`none` models `NaN`. -/
def jsNumber (s : Str) : Option ℚ :=
  let t := trimWs s
  match t with
  | [] => some 0
  | 45 :: rest => (parseDec rest).map (fun q => -q)
  | 43 :: rest => parseDec rest
  | _ => parseDec t

/-- A JavaScript value as it can appear in a parsed row object:
`undefined` (absent property), `null`, or a string. -/
inductive JsVal : Type where
  | undefined : JsVal
  | null : JsVal
  | strv : Str → JsVal
deriving DecidableEq, Repr

/-- A parsed CSV row: a JavaScript object mapping column names to values.
`csv-parse` with `columns: true` produces string-valued properties with
distinct keys; property lookup takes the first matching key. -/
abbrev Row := List (Str × JsVal)

/-- JavaScript property read `row[name]`: `undefined` when absent. -/
def rowGet (row : Row) (name : Str) : JsVal :=
  match row.find? (fun p => p.1 == name) with
  | some p => p.2
  | none => .undefined

/-- Template-literal coercion `` `${s}` `` of a row value to a string. -/
def jsToString : JsVal → Str
  | .undefined => str "undefined"
  | .null => str "null"
  | .strv s => s

/-- The errors thrown by the `Dsl` conversion functions, named after the
design document's taxonomy; each carries the offending column name. -/
inductive DslError : Type where
  | missingField : Str → DslError
  | notANumber : Str → DslError
  | typeMismatch : Str → DslError
deriving DecidableEq, Repr

instance {ε α : Type} [DecidableEq ε] [DecidableEq α] : DecidableEq (Except ε α)
  | .ok a, .ok b =>
    if h : a = b then .isTrue (by rw [h]) else .isFalse (by intro c; injection c; contradiction)
  | .ok _, .error _ => .isFalse (by intro c; cases c)
  | .error _, .ok _ => .isFalse (by intro c; cases c)
  | .error a, .error b =>
    if h : a = b then .isTrue (by rw [h]) else .isFalse (by intro c; injection c; contradiction)

/-- Capitalisation step of `titleCase`, one word:
`word.replace(word[0], word[0].toUpperCase())`.  On the empty word,
`word[0]` is `undefined` and `undefined.toUpperCase()` throws a
`TypeError`, modelled as `none`. -/
def capWord (w : Str) : Option Str :=
  match w with
  | [] => none
  | c :: _ => some (jsReplaceFirst [c] [toUpperCU c] w)

/-- Total form of the capitalisation step on a nonempty word: the first
occurrence of the first character is the first character itself, so the
replacement upper-cases exactly the head (see `capWord_cons`). -/
def capTotal (w : Str) : Str :=
  match w with
  | [] => []
  | c :: cs => toUpperCU c :: cs

namespace Dsl

/-! The `Dsl` class of `src/lib/api.ts`: conversion functions closed over one
row.  `this.row[name]` is `rowGet row name`; a thrown `Error` is an
`Except.error`. -/

/-- `api.ts` `Dsl.value`: `(name) => this.row[name]` — a plain property read,
total. -/
def value (row : Row) (name : Str) : JsVal :=
  rowGet row name

/-- `api.ts` `Dsl.titleCase`:
`str.toLowerCase().split(' ').map(word => word.replace(word[0], word[0].toUpperCase())).join(' ')`.
`none` models the `TypeError` thrown when some word is empty. -/
def titleCase (s : Str) : Option Str :=
  ((jsSplit 32 (s.map toLowerCU)).mapM capWord).map (List.intercalate [32])

/-- `api.ts` `Dsl.float`: reads `this.row[name]`; throws
`` `${name} is undefined` `` when the property is `undefined`; otherwise
strips every comma and parses with `Number`, throwing
`` `${name} is not a number` `` on `NaN`.  A `null` property makes
`s.replace` throw a `TypeError` (`null` has no methods). -/
def float (row : Row) (name : Str) : Except DslError ℚ :=
  match rowGet row name with
  | .undefined => .error (.missingField name)
  | .null => .error (.typeMismatch name)
  | .strv s =>
    match jsNumber (stripCommas s) with
    | none => .error (.notANumber name)
    | some q => .ok q

/-- `api.ts` `Dsl.integer`: `Math.floor(this.float(name))`. -/
def integer (row : Row) (name : Str) : Except DslError ℚ :=
  (float row name).map (fun q => ((⌊q⌋ : ℤ) : ℚ))

end Dsl

namespace DslR

/-! The revised `Dsl` class (the revision of `api.ts` whose conversion
functions take a `required` flag, matching `api.spec.ts`). -/

/-- Revised `Dsl.value`: reads `this.row[name]` and throws
`` `${name} is not in the source row` `` when `required` and the property is
`undefined` or `null`; otherwise returns the property as is. -/
def value (row : Row) (name : Str) (required : Bool) : Except DslError JsVal :=
  let s := rowGet row name
  if required ∧ (s = .undefined ∨ s = .null) then .error (.missingField name)
  else .ok s

/-- Revised `Dsl.float`: resolves `this.value(name, required)`, coerces it to
a string with a template literal, strips commas and parses with `Number`,
throwing `` `${name} is not a number` `` on `NaN`. -/
def float (row : Row) (name : Str) (required : Bool) : Except DslError ℚ :=
  (value row name required).bind (fun v =>
    match jsNumber (stripCommas (jsToString v)) with
    | none => .error (.notANumber name)
    | some q => .ok q)

/-- Revised `Dsl.integer`: `Math.floor(this.float(name, required))`. -/
def integer (row : Row) (name : Str) (required : Bool) : Except DslError ℚ :=
  (float row name required).map (fun q => ((⌊q⌋ : ℤ) : ℚ))

end DslR

/-- One entry of `WranglerConfig.mappings` (`api.ts`): an output field name
and the formula text that computes it. -/
structure Mapping : Type where
  name : Str
  formula : Str
deriving DecidableEq, Repr

/-- JavaScript property assignment `target[k] = v` on an object represented
as its insertion-ordered property list: assigning to an existing key updates
it in place, a new key is appended. -/
def objSet {α : Type} (rec : List (Str × α)) (k : Str) (v : α) : List (Str × α) :=
  if rec.any (fun p => p.1 == k) then
    rec.map (fun p => if p.1 = k then (k, v) else p)
  else rec ++ [(k, v)]

/-- `wrangler.ts` `buildTransformer`: iterates `config.mappings` in order,
evaluating each mapping's formula against the row and assigning the result
to `mutableTarget[mapping.name]`; the first thrown evaluation error aborts
the whole row transformation (the exception propagates out of `forEach`).
The per-formula evaluation — in the source, a function freshly compiled by
the `Function` constructor from the formula text and called on the `Dsl`
bindings — is abstracted as the argument `evalF`, since formulas are
arbitrary host-language expressions. -/
def buildTransformer {ε α : Type} (evalF : Str → Row → Except ε α)
    (mappings : List Mapping) (row : Row) : Except ε (List (Str × α)) :=
  mappings.foldlM (fun rec m => (evalF m.formula row).map (fun v => objSet rec m.name v)) []

/-- One observable event of the wrangle output stream: a downstream `data`
record or a `skip` event carrying the error and the offending row. -/
inductive Event (ε α : Type) : Type where
  | data : α → Event ε α
  | skip : ε → Row → Event ε α
deriving DecidableEq, Repr

/-- `wrangler.ts` `_wrangle`'s `userTransform` stage: `stream-transform`
applies the synchronous handler to each parsed row in order; a handler
return value is emitted downstream, a thrown error is caught, decorated
with the row, emitted as a `skip` event, and the row is dropped
(`return undefined`).  Processing then continues with the next row. -/
def runWrangle {ε α : Type} (transformer : Row → Except ε α) (rows : List Row) :
    List (Event ε α) :=
  rows.map (fun row =>
    match transformer row with
    | .ok rec => .data rec
    | .error e => .skip e row)

/-- The records emitted downstream, in emission order. -/
def dataEvents {ε α : Type} : List (Event ε α) → List α
  | [] => []
  | .data rec :: es => rec :: dataEvents es
  | .skip _ _ :: es => dataEvents es

/-- The `skip` side-channel events, in emission order. -/
def skipEvents {ε α : Type} : List (Event ε α) → List (ε × Row)
  | [] => []
  | .data _ :: es => skipEvents es
  | .skip e row :: es => (e, row) :: skipEvents es

/-- The parameter names of the function built for each formula:
`Object.keys(new api.Dsl(row))` — the instance's own enumerable properties
in creation order: `row` (assigned in the constructor), then the field
initializers `value`, `titleCase`, `integer`, `float`. -/
def dslScopeNames : List Str :=
  [str "row", str "value", str "titleCase", str "integer", str "float"]

/-- A JavaScript scope chain: a global object at the root and parameter
frames above it. -/
inductive Scope : Type where
  | global : List Str → Scope
  | frame : List Str → Scope → Scope

/-- Name resolution along a scope chain. -/
def Scope.resolves : Scope → Str → Bool
  | .global names, n => names.contains n
  | .frame params parent, n => params.contains n || parent.resolves n

/-- The scope chain in which a formula body evaluates.  Per ECMAScript, a
function created by the `Function` constructor (as in `buildTransformer`:
`Function(...Object.keys(context), '"use strict"; return (' + formula + ');')`)
closes over the *global* environment, not the lexical scope of the code that
called `Function`; so the formula body sees the five `Dsl` parameter
bindings and, through them, the entire global object. -/
def formulaScope (globals : List Str) : Scope :=
  .frame dslScopeNames (.global globals)

/-- The property names of an output record, in insertion order. -/
def keysOf {α : Type} (rec : List (Str × α)) : List Str :=
  rec.map Prod.fst

/-! ## Record-building lemmas -/

theorem any_eq_mem_keysOf {α : Type} (rec : List (Str × α)) (k : Str) :
    rec.any (fun p => p.1 == k) = true ↔ k ∈ keysOf rec := by
  simp only [List.any_eq_true, beq_iff_eq, keysOf, List.mem_map]

theorem keysOf_objSet_of_mem {α : Type} {rec : List (Str × α)} {k : Str} (v : α)
    (h : k ∈ keysOf rec) : keysOf (objSet rec k v) = keysOf rec := by
  have hany := (any_eq_mem_keysOf rec k).mpr h
  simp only [objSet, hany, if_true, keysOf, List.map_map]
  refine List.map_congr_left ?_
  intro p _
  by_cases hpk : p.1 = k <;> simp [hpk]

theorem keysOf_objSet_of_not_mem {α : Type} {rec : List (Str × α)} {k : Str} (v : α)
    (h : k ∉ keysOf rec) : keysOf (objSet rec k v) = keysOf rec ++ [k] := by
  have hany : rec.any (fun p => p.1 == k) = false := by
    rw [← Bool.not_eq_true, any_eq_mem_keysOf]
    exact h
  simp [objSet, hany, keysOf]

theorem mem_keysOf_objSet {α : Type} (rec : List (Str × α)) (k k' : Str) (v : α) :
    k' ∈ keysOf (objSet rec k v) ↔ k' ∈ keysOf rec ∨ k' = k := by
  by_cases h : k ∈ keysOf rec
  · rw [keysOf_objSet_of_mem v h]
    constructor
    · exact Or.inl
    · rintro (hk | rfl) <;> [exact hk; exact h]
  · rw [keysOf_objSet_of_not_mem v h]
    simp

theorem nodup_keysOf_objSet {α : Type} {rec : List (Str × α)} {k : Str} (v : α)
    (h : (keysOf rec).Nodup) : (keysOf (objSet rec k v)).Nodup := by
  by_cases hk : k ∈ keysOf rec
  · rw [keysOf_objSet_of_mem v hk]
    exact h
  · rw [keysOf_objSet_of_not_mem v hk]
    simp [List.nodup_append, h, hk]

theorem lookup_map_update_of_mem {α : Type} {rec : List (Str × α)} {k : Str} (v : α)
    (h : k ∈ keysOf rec) :
    List.lookup k (rec.map (fun p => if p.1 = k then (k, v) else p)) = some v := by
  induction rec with
  | nil => cases h
  | cons p t ih =>
    simp only [List.map_cons]
    by_cases hpk : p.1 = k
    · rw [if_pos hpk]
      simp [List.lookup]
    · rw [if_neg hpk]
      have ht : k ∈ keysOf t := by
        rcases (by simpa [keysOf] using h) with h' | h'
        · exact absurd h'.symm hpk
        · simpa [keysOf] using h'
      have hne : (k == p.1) = false := by
        simp only [beq_eq_false_iff_ne, ne_eq]
        exact fun hc => hpk hc.symm
      simp [List.lookup, hne, ih ht]

theorem lookup_map_update_ne {α : Type} (rec : List (Str × α)) {k k' : Str} (v : α)
    (h : k' ≠ k) :
    List.lookup k' (rec.map (fun p => if p.1 = k then (k, v) else p)) =
      List.lookup k' rec := by
  induction rec with
  | nil => rfl
  | cons p t ih =>
    simp only [List.map_cons]
    by_cases hpk : p.1 = k
    · rw [if_pos hpk]
      have h1 : (k' == k) = false := by simp [beq_iff_eq, h]
      have h2 : (k' == p.1) = false := by
        simp only [beq_eq_false_iff_ne, ne_eq]
        exact fun hc => h (hc.trans hpk)
      simp [List.lookup, h1, h2, ih]
    · rw [if_neg hpk]
      by_cases hk' : k' = p.1 <;> simp [List.lookup, hk', ih]

theorem lookup_append_single_of_not_mem {α : Type} {rec : List (Str × α)} {k : Str}
    (v : α) (h : k ∉ keysOf rec) : List.lookup k (rec ++ [(k, v)]) = some v := by
  induction rec with
  | nil => simp [List.lookup]
  | cons p t ih =>
    have hpk : ¬k = p.1 := fun hc => h (by simp [keysOf, hc])
    have hb : (k == p.1) = false := beq_eq_false_iff_ne.mpr hpk
    have ht : k ∉ keysOf t := fun hc => h (by simp [keysOf] at hc ⊢; exact Or.inr hc)
    simp [List.lookup, hb, ih ht]

theorem lookup_append_single_ne {α : Type} (rec : List (Str × α)) {k k' : Str} (v : α)
    (h : k' ≠ k) : List.lookup k' (rec ++ [(k, v)]) = List.lookup k' rec := by
  have hb : (k' == k) = false := beq_eq_false_iff_ne.mpr h
  induction rec with
  | nil => simp [List.lookup, hb]
  | cons p t ih =>
    by_cases hk' : k' = p.1 <;> simp [List.lookup, hk', ih]

theorem lookup_objSet_self {α : Type} (rec : List (Str × α)) (k : Str) (v : α) :
    List.lookup k (objSet rec k v) = some v := by
  by_cases h : k ∈ keysOf rec
  · have hany := (any_eq_mem_keysOf rec k).mpr h
    simp only [objSet, hany, if_true]
    exact lookup_map_update_of_mem v h
  · have hany : rec.any (fun p => p.1 == k) = false := by
      rw [← Bool.not_eq_true, any_eq_mem_keysOf]
      exact h
    simp only [objSet, hany]
    simp only [Bool.false_eq_true, if_false]
    exact lookup_append_single_of_not_mem v h

theorem lookup_objSet_ne {α : Type} (rec : List (Str × α)) {k k' : Str} (v : α)
    (h : k' ≠ k) : List.lookup k' (objSet rec k v) = List.lookup k' rec := by
  by_cases hmem : k ∈ keysOf rec
  · have hany := (any_eq_mem_keysOf rec k).mpr hmem
    simp only [objSet, hany, if_true]
    exact lookup_map_update_ne rec v h
  · have hany : rec.any (fun p => p.1 == k) = false := by
      rw [← Bool.not_eq_true, any_eq_mem_keysOf]
      exact hmem
    simp only [objSet, hany]
    simp only [Bool.false_eq_true, if_false]
    exact lookup_append_single_ne rec v h

theorem buildTransformer_loop_spec {ε α : Type} (evalF : Str → Row → Except ε α)
    (row : Row) :
    ∀ (mappings : List Mapping) (rec₀ : List (Str × α)),
      (∀ m ∈ mappings, ∃ v, evalF m.formula row = .ok v) →
      ∃ rec,
        mappings.foldlM
            (fun rec m => (evalF m.formula row).map (fun v => objSet rec m.name v)) rec₀ =
          .ok rec
        ∧ ((keysOf rec₀).Nodup → (keysOf rec).Nodup)
        ∧ (∀ k, k ∈ keysOf rec ↔ k ∈ keysOf rec₀ ∨ ∃ m ∈ mappings, m.name = k)
        ∧ (∀ k, List.lookup k rec =
            match mappings.reverse.find? (fun m => m.name == k) with
            | some m => (evalF m.formula row).toOption
            | none => List.lookup k rec₀) := by
  intro mappings
  induction mappings with
  | nil =>
    intro rec₀ _
    exact ⟨rec₀, by simp [pure, Except.pure], fun h => h, by simp, by simp⟩
  | cons m ms ih =>
    intro rec₀ h
    obtain ⟨v, hv⟩ := h m (List.mem_cons_self m ms)
    obtain ⟨rec, hfold, hnodup, hmem, hlookup⟩ :=
      ih (objSet rec₀ m.name v) (fun m' hm' => h m' (List.mem_cons_of_mem m hm'))
    refine ⟨rec, ?_, ?_, ?_, ?_⟩
    · simpa [List.foldlM_cons, hv, Except.map, Except.bind] using hfold
    · intro h₀
      exact hnodup (nodup_keysOf_objSet v h₀)
    · intro k
      rw [hmem k, mem_keysOf_objSet]
      simp only [List.mem_cons]
      constructor
      · rintro ((hk | rfl) | ⟨m', hm', rfl⟩)
        · exact Or.inl hk
        · exact Or.inr ⟨m, Or.inl rfl, rfl⟩
        · exact Or.inr ⟨m', Or.inr hm', rfl⟩
      · rintro (hk | ⟨m', hm' | hm', rfl⟩)
        · exact Or.inl (Or.inl hk)
        · exact Or.inl (Or.inr (hm' ▸ rfl))
        · exact Or.inr ⟨m', hm', rfl⟩
    · intro k
      rw [hlookup k, List.reverse_cons, List.find?_append]
      cases hfind : ms.reverse.find? (fun m' => m'.name == k) with
      | some m' => simp [Option.or]
      | none =>
        simp only [Option.or, List.find?]
        by_cases hk : m.name = k
        · subst hk
          simp only [beq_self_eq_true]
          rw [lookup_objSet_self]
          simp [hv, Except.toOption]
        · have hb : (m.name == k) = false := beq_eq_false_iff_ne.mpr hk
          simp only [hb]
          exact lookup_objSet_ne rec₀ v (fun hc => hk hc.symm)

/-! ## Split / case-mapping lemmas -/

theorem jsSplit_ne_nil (sep : Nat) (s : Str) : jsSplit sep s ≠ [] := by
  induction s with
  | nil => simp [jsSplit]
  | cons c cs ih =>
    by_cases hc : c = sep
    · simp [jsSplit, hc]
    · cases hsplit : jsSplit sep cs with
      | nil => exact absurd hsplit ih
      | cons w ws => simp [jsSplit, hc, hsplit]

theorem jsSplit_cons_ne {sep c : Nat} (cs : Str) (hc : ¬c = sep) {w₀ : Str}
    {ws : List Str} (hsplit : jsSplit sep cs = w₀ :: ws) :
    jsSplit sep (c :: cs) = (c :: w₀) :: ws := by
  simp [jsSplit, hc, hsplit]

theorem jsSplit_cons_self (sep : Nat) (cs : Str) :
    jsSplit sep (sep :: cs) = [] :: jsSplit sep cs := by
  simp [jsSplit]

theorem not_mem_of_mem_jsSplit {sep : Nat} {s : Str} :
    ∀ w ∈ jsSplit sep s, sep ∉ w := by
  induction s with
  | nil =>
    intro w hw
    simp [jsSplit] at hw
    simp [hw]
  | cons c cs ih =>
    intro w hw
    by_cases hc : c = sep
    · subst hc
      rw [jsSplit_cons_self, List.mem_cons] at hw
      rcases hw with rfl | hw
      · simp
      · exact ih w hw
    · cases hsplit : jsSplit sep cs with
      | nil => exact absurd hsplit (jsSplit_ne_nil sep cs)
      | cons w₀ ws =>
        rw [jsSplit_cons_ne cs hc hsplit, List.mem_cons] at hw
        rcases hw with rfl | hw
        · have h₀ : sep ∉ w₀ := ih w₀ (by simp [hsplit])
          simp [List.mem_cons, h₀]
          exact fun hc' => hc hc'.symm
        · exact ih w (by simp [hsplit, hw])

theorem mem_of_mem_jsSplit {sep u : Nat} {s : Str} :
    ∀ w ∈ jsSplit sep s, u ∈ w → u ∈ s := by
  induction s with
  | nil =>
    intro w hw hu
    simp [jsSplit] at hw
    subst hw
    cases hu
  | cons c cs ih =>
    intro w hw hu
    by_cases hc : c = sep
    · subst hc
      rw [jsSplit_cons_self, List.mem_cons] at hw
      rcases hw with rfl | hw
      · cases hu
      · exact List.mem_cons_of_mem c (ih w hw hu)
    · cases hsplit : jsSplit sep cs with
      | nil => exact absurd hsplit (jsSplit_ne_nil sep cs)
      | cons w₀ ws =>
        rw [jsSplit_cons_ne cs hc hsplit, List.mem_cons] at hw
        rcases hw with rfl | hw
        · rcases List.mem_cons.mp hu with rfl | hu₀
          · exact List.mem_cons_self u cs
          · exact List.mem_cons_of_mem c (ih w₀ (by simp [hsplit]) hu₀)
        · exact List.mem_cons_of_mem c (ih w (by simp [hsplit, hw]) hu)

theorem jsSplit_of_not_mem {sep : Nat} {w : Str} (h : sep ∉ w) :
    jsSplit sep w = [w] := by
  induction w with
  | nil => rfl
  | cons c cs ih =>
    have hc : ¬c = sep := fun hc => h (by simp [hc])
    have hcs : sep ∉ cs := fun hcs => h (List.mem_cons_of_mem c hcs)
    simp [jsSplit, hc, ih hcs]

theorem jsSplit_append_cons {sep : Nat} {w : Str} (s : Str) (h : sep ∉ w) :
    jsSplit sep (w ++ sep :: s) = w :: jsSplit sep s := by
  induction w with
  | nil => simp [jsSplit]
  | cons c cs ih =>
    have hc : ¬c = sep := fun hc => h (by simp [hc])
    have hcs : sep ∉ cs := fun hcs => h (List.mem_cons_of_mem c hcs)
    simp [jsSplit, hc, ih hcs]

theorem intercalate_cons_cons {α : Type} (sep : α) (w w' : List α) (ws : List (List α)) :
    List.intercalate [sep] (w :: w' :: ws) =
      w ++ sep :: List.intercalate [sep] (w' :: ws) := by
  simp [List.intercalate, List.intersperse]

theorem intercalate_single {α : Type} (sep : α) (w : List α) :
    List.intercalate [sep] [w] = w := by
  simp [List.intercalate, List.intersperse]

theorem jsSplit_intercalate {sep : Nat} :
    ∀ ws : List Str, ws ≠ [] → (∀ w ∈ ws, sep ∉ w) →
      jsSplit sep (List.intercalate [sep] ws) = ws := by
  intro ws
  induction ws with
  | nil => intro h; exact absurd rfl h
  | cons w ws ih =>
    intro _ h
    cases ws with
    | nil => rw [intercalate_single, jsSplit_of_not_mem (h w (by simp))]
    | cons w' ws' =>
      rw [intercalate_cons_cons, jsSplit_append_cons _ (h w (by simp)),
        ih (by simp) (fun x hx => h x (List.mem_cons_of_mem w hx))]

theorem toLowerCU_toLowerCU (u : Nat) : toLowerCU (toLowerCU u) = toLowerCU u := by
  simp only [toLowerCU]
  split_ifs <;> omega

theorem toLowerCU_toUpperCU (u : Nat) : toLowerCU (toUpperCU u) = toLowerCU u := by
  simp only [toLowerCU, toUpperCU]
  split_ifs <;> omega

theorem toLowerCU_eq_space {u : Nat} (h : toLowerCU u = 32) : u = 32 := by
  simp only [toLowerCU] at h
  split_ifs at h <;> omega

theorem toUpperCU_eq_space {u : Nat} (h : toUpperCU u = 32) : u = 32 := by
  simp only [toUpperCU] at h
  split_ifs at h <;> omega

theorem map_toLowerCU_intercalate :
    ∀ ws : List Str,
      (List.intercalate [32] ws).map toLowerCU =
        List.intercalate [32] (ws.map (List.map toLowerCU)) := by
  intro ws
  induction ws with
  | nil => rfl
  | cons w ws ih =>
    cases ws with
    | nil => simp [intercalate_single]
    | cons w' ws' =>
      have h32 : toLowerCU 32 = 32 := by decide
      rw [intercalate_cons_cons 32 w w' ws']
      simp only [List.map_cons, List.map_append]
      rw [ih, h32]
      rw [intercalate_cons_cons 32 (w.map toLowerCU) (w'.map toLowerCU)
        (ws'.map (List.map toLowerCU))]
      simp [List.map_cons]

theorem capWord_cons (c : Nat) (cs : Str) :
    capWord (c :: cs) = some (toUpperCU c :: cs) := by
  simp [capWord, jsReplaceFirst, List.isPrefixOf]

theorem mapM_capWord_of_ne_nil :
    ∀ ws : List Str, (∀ w ∈ ws, w ≠ []) →
      ws.mapM capWord = some (ws.map capTotal) := by
  intro ws
  induction ws with
  | nil => intro h; rfl
  | cons w ws ih =>
    intro h
    cases w with
    | nil => exact absurd rfl (h [] (by simp))
    | cons c cs =>
      rw [List.mapM_cons, capWord_cons, ih (fun x hx => h x (List.mem_cons_of_mem _ hx))]
      simp [capTotal]

theorem mapM_capWord_of_nil_mem :
    ∀ ws : List Str, [] ∈ ws → ws.mapM capWord = none := by
  intro ws
  induction ws with
  | nil => intro h; cases h
  | cons w ws ih =>
    intro h
    cases w with
    | nil =>
      rw [List.mapM_cons]
      simp [capWord]
    | cons c cs =>
      have hmem : ([] : Str) ∈ ws := by
        rcases List.mem_cons.mp h with hc | hmem
        · cases hc
        · exact hmem
      rw [List.mapM_cons, capWord_cons, ih hmem]
      rfl

theorem titleCase_eq_some {s : Str}
    (h : ∀ w ∈ jsSplit 32 (s.map toLowerCU), w ≠ []) :
    Dsl.titleCase s =
      some (List.intercalate [32] ((jsSplit 32 (s.map toLowerCU)).map capTotal)) := by
  rw [Dsl.titleCase, mapM_capWord_of_ne_nil _ h]
  rfl

theorem titleCase_eq_none {s : Str}
    (h : [] ∈ jsSplit 32 (s.map toLowerCU)) : Dsl.titleCase s = none := by
  rw [Dsl.titleCase, mapM_capWord_of_nil_mem _ h]
  rfl

theorem map_toLowerCU_capTotal {w : Str} (hwne : w ≠ [])
    (hlow : ∀ u ∈ w, toLowerCU u = u) :
    (capTotal w).map toLowerCU = w := by
  cases w with
  | nil => exact absurd rfl hwne
  | cons c cs =>
    rw [capTotal, List.map_cons, toLowerCU_toUpperCU,
      hlow c (List.mem_cons_self c cs)]
    have hcs : cs.map toLowerCU = cs :=
      calc cs.map toLowerCU
          = cs.map id :=
            List.map_congr_left (fun u hu => hlow u (List.mem_cons_of_mem c hu))
        _ = cs := List.map_id cs
    rw [hcs]

theorem titleCase_intercalate_capTotal (ws : List Str) (hne : ws ≠ [])
    (hwne : ∀ w ∈ ws, w ≠ []) (hsep : ∀ w ∈ ws, (32 : Nat) ∉ w)
    (hlow : ∀ w ∈ ws, ∀ u ∈ w, toLowerCU u = u) :
    Dsl.titleCase (List.intercalate [32] (ws.map capTotal)) =
      some (List.intercalate [32] (ws.map capTotal)) := by
  have hmapLow :
      (List.intercalate [32] (ws.map capTotal)).map toLowerCU =
        List.intercalate [32] ws := by
    rw [map_toLowerCU_intercalate, List.map_map]
    congr 1
    calc ws.map (List.map toLowerCU ∘ capTotal)
        = ws.map id :=
          List.map_congr_left (fun w hw =>
            map_toLowerCU_capTotal (hwne w hw) (hlow w hw))
      _ = ws := List.map_id ws
  have hsplitBack :
      jsSplit 32 ((List.intercalate [32] (ws.map capTotal)).map toLowerCU) = ws := by
    rw [hmapLow]
    exact jsSplit_intercalate ws hne hsep
  rw [Dsl.titleCase, hsplitBack, mapM_capWord_of_ne_nil ws hwne]
  rfl

/-! ## Pipeline lemmas -/

theorem runWrangle_append {ε α : Type} (transformer : Row → Except ε α)
    (rows₁ rows₂ : List Row) :
    runWrangle transformer (rows₁ ++ rows₂) =
      runWrangle transformer rows₁ ++ runWrangle transformer rows₂ := by
  simp [runWrangle]

theorem dataEvents_append {ε α : Type} (es₁ es₂ : List (Event ε α)) :
    dataEvents (es₁ ++ es₂) = dataEvents es₁ ++ dataEvents es₂ := by
  induction es₁ with
  | nil => rfl
  | cons e es ih => cases e <;> simp [dataEvents, ih]

theorem skipEvents_append {ε α : Type} (es₁ es₂ : List (Event ε α)) :
    skipEvents (es₁ ++ es₂) = skipEvents es₁ ++ skipEvents es₂ := by
  induction es₁ with
  | nil => rfl
  | cons e es ih => cases e <;> simp [skipEvents, ih]

theorem dataEvents_runWrangle {ε α : Type} (transformer : Row → Except ε α)
    (rows : List Row) :
    dataEvents (runWrangle transformer rows) =
      rows.filterMap (fun r => (transformer r).toOption) := by
  induction rows with
  | nil => rfl
  | cons r rows ih =>
    simp only [runWrangle, List.map_cons, List.filterMap_cons] at *
    cases h : transformer r <;> simp [dataEvents, Except.toOption, h, ih]

/-! ## Claim theorems -/

/-- Claim C2: when a row's transformation throws, the pipeline emits no
output record for that row — not even a partial one — but exactly one
`skip` side-channel event carrying that row, and every subsequent row is
still processed in order. -/
theorem C2_failed_row_skipped {ε α : Type} (transformer : Row → Except ε α)
    (rows₁ rows₂ : List Row) (row : Row) (e : ε)
    (h : transformer row = .error e) :
    runWrangle transformer (rows₁ ++ row :: rows₂) =
        runWrangle transformer rows₁ ++
          Event.skip e row :: runWrangle transformer rows₂
      ∧ dataEvents (runWrangle transformer (rows₁ ++ row :: rows₂)) =
          dataEvents (runWrangle transformer rows₁) ++
            dataEvents (runWrangle transformer rows₂)
      ∧ skipEvents (runWrangle transformer (rows₁ ++ row :: rows₂)) =
          skipEvents (runWrangle transformer rows₁) ++
            (e, row) :: skipEvents (runWrangle transformer rows₂) := by
  have hstep : runWrangle transformer (rows₁ ++ row :: rows₂) =
      runWrangle transformer rows₁ ++
        Event.skip e row :: runWrangle transformer rows₂ := by
    simp [runWrangle, h]
  refine ⟨hstep, ?_, ?_⟩
  · rw [hstep, dataEvents_append]
    simp [dataEvents]
  · rw [hstep, skipEvents_append]
    simp [skipEvents]

/-- Witness for C2 at a concrete transformer and row list: the transformer
rejects the empty row; the middle row produces a single skip and the
surrounding rows are still emitted. -/
theorem C2_failed_row_skipped_witness :
    runWrangle (fun r : Row => if r = [] then (Except.error 7 : Except Nat Row) else .ok r)
        ([[(str "a", .strv (str "1"))]] ++ [] :: [[(str "b", .strv (str "2"))]]) =
      runWrangle (fun r : Row => if r = [] then (Except.error 7 : Except Nat Row) else .ok r)
          [[(str "a", .strv (str "1"))]] ++
        Event.skip 7 [] :: runWrangle
          (fun r : Row => if r = [] then (Except.error 7 : Except Nat Row) else .ok r)
          [[(str "b", .strv (str "2"))]] :=
  (C2_failed_row_skipped
    (fun r : Row => if r = [] then (Except.error 7 : Except Nat Row) else .ok r)
    [[(str "a", .strv (str "1"))]] [[(str "b", .strv (str "2"))]] [] 7 (by decide)).1

/-- Claim C3: the records emitted downstream are exactly the in-order image
of the successfully transformed rows; rows dropped by a failure leave a gap
and nothing is reordered or held back. -/
theorem C3_output_order_preserved {ε α : Type} (transformer : Row → Except ε α)
    (rows : List Row) :
    dataEvents (runWrangle transformer rows) =
      rows.filterMap (fun r => (transformer r).toOption) :=
  dataEvents_runWrangle transformer rows

/-- Counterexample to claim C9 as stated: a formula's scope chain resolves
names that are not among the `Dsl` bindings.  `Date` — a name the
repository's own sample formula `new Date(value('Year'),...)` relies on —
resolves as soon as the global object carries it, because a
`Function`-constructed function evaluates in the global environment. -/
theorem C9_counterexample :
    (formulaScope [str "Date"]).resolves (str "Date") = true
      ∧ (str "Date") ∉ dslScopeNames := by
  constructor
  · decide
  · decide

/-- Claim C9 amended: a formula is evaluated with the `Dsl` bindings
(`row`, `value`, `titleCase`, `integer`, `float`) in scope *plus* the host's
entire global environment — `Function`-constructed code runs in global
scope, so the formula's resolvable names are exactly the `Dsl` parameters
together with the global names; only the wrangler module's own lexical
names are excluded. -/
theorem C9_formula_scope_amended (globals : List Str) (n : Str) :
    (formulaScope globals).resolves n =
      (dslScopeNames.contains n || globals.contains n) := by
  rfl

/-- Claim C4: `value(name, required=true)` fails with the `MissingField`
error when the field is absent from the row (`undefined`) or present only as
`null`, succeeds on a present string, and `value(name, required=false)`
never fails, returning the row's value — the missing marker (`undefined`)
when the field is absent. -/
theorem C4_value_required (row : Row) (name : Str) :
    ((rowGet row name = .undefined ∨ rowGet row name = .null) →
        DslR.value row name true = .error (.missingField name))
      ∧ (∀ s, rowGet row name = .strv s → DslR.value row name true = .ok (.strv s))
      ∧ DslR.value row name false = .ok (rowGet row name) := by
  refine ⟨?_, ?_, ?_⟩
  · intro h
    rcases h with h | h <;> simp [DslR.value, h]
  · intro s hs
    simp [DslR.value, hs]
  · simp [DslR.value]

/-- Witness for C4: on the empty row the field `x` is absent, so the strict
lookup fails with `MissingField` and the lenient lookup returns `undefined`. -/
theorem C4_value_required_witness :
    DslR.value [] (str "x") true = .error (.missingField (str "x"))
      ∧ DslR.value [] (str "x") false = .ok .undefined :=
  ⟨(C4_value_required [] (str "x")).1 (Or.inl rfl),
   (C4_value_required [] (str "x")).2.2⟩

/-- Claim C5: `integer(name)` is `floor(float(name))` with floor truncating
toward negative infinity — on the text `"-1.5"` it yields `-2`, not `-1` —
and `integer` fails exactly when `float` fails, with the same error. -/
theorem C5_integer_floor_float :
    (∀ (row : Row) (name : Str) (q : ℚ), Dsl.float row name = .ok q →
        Dsl.integer row name = .ok ((⌊q⌋ : ℤ) : ℚ))
      ∧ (∀ (row : Row) (name : Str) (e : DslError),
          Dsl.integer row name = .error e ↔ Dsl.float row name = .error e)
      ∧ Dsl.integer [(str "x", .strv (str "-1.5"))] (str "x") = .ok ((-2 : ℤ) : ℚ) := by
  refine ⟨?_, ?_, ?_⟩
  · intro row name q h
    simp [Dsl.integer, Except.map, h]
  · intro row name e
    cases h : Dsl.float row name <;> simp [Dsl.integer, Except.map, h]
  · decide

/-- Witness for C5: on a row where `x` holds `"-1.5"`, `float` returns
`-3/2` and `integer` returns its floor. -/
theorem C5_integer_floor_float_witness :
    Dsl.integer [(str "x", .strv (str "-1.5"))] (str "x") =
      .ok ((⌊mkRat (-3) 2⌋ : ℤ) : ℚ) :=
  C5_integer_floor_float.1 _ _ _ (by decide)

/-- Claim C6: `float(name)` removes every comma from the field's text before
parsing it with `Number`; on `"5,250.50"` it yields `10501/2 = 5250.50`; it
fails with `NotANumber` when the comma-stripped text does not parse, and
with `MissingField` when the field is absent from the row. -/
theorem C6_float_strips_commas :
    (∀ (row : Row) (name : Str), rowGet row name = .undefined →
        Dsl.float row name = .error (.missingField name))
      ∧ (∀ (row : Row) (name : Str) (s : Str), rowGet row name = .strv s →
          jsNumber (stripCommas s) = none →
          Dsl.float row name = .error (.notANumber name))
      ∧ (∀ (row : Row) (name : Str) (s : Str) (q : ℚ), rowGet row name = .strv s →
          jsNumber (stripCommas s) = some q → Dsl.float row name = .ok q)
      ∧ Dsl.float [(str "Count", .strv (str "5,250.50"))] (str "Count") =
          .ok (mkRat 10501 2) := by
  refine ⟨?_, ?_, ?_, ?_⟩
  · intro row name h
    simp [Dsl.float, h]
  · intro row name s hs hn
    simp [Dsl.float, hs, hn]
  · intro row name s q hs hq
    simp [Dsl.float, hs, hq]
  · decide

/-- Witness for C6: the comma-stripped text `"5250.50"` parses to `10501/2`,
and `float` returns exactly that value. -/
theorem C6_float_strips_commas_witness :
    Dsl.float [(str "Count", .strv (str "5,250.50"))] (str "Count") =
      .ok (mkRat 10501 2) :=
  C6_float_strips_commas.2.2.1 [(str "Count", .strv (str "5,250.50"))]
    (str "Count") (str "5,250.50") (mkRat 10501 2) (by decide) (by decide)

theorem jsNumber_all_ws {s : Str} (hws : s.all isWsCU = true) : jsNumber s = some 0 := by
  have htrim : trimWs s = [] := by
    have : s.dropWhile isWsCU = [] :=
      List.dropWhile_eq_nil_iff.mpr (by simpa [List.all_eq_true] using hws)
    simp [trimWs, this]
  simp [jsNumber, htrim]

theorem stripCommas_all_ws {s : Str} (hws : s.all isWsCU = true) : stripCommas s = s := by
  rw [stripCommas, List.filter_eq_self]
  intro u hu
  have := (List.all_eq_true.mp hws) u hu
  simp only [isWsCU, Bool.or_eq_true, beq_iff_eq] at this
  simp only [ne_eq, decide_eq_true_eq]
  omega

/-- Claim C10: a field that is present but holds the empty string (or only
whitespace) silently converts to zero: `float` returns `0` instead of
failing with `NotANumber` — `Number('')` is `0` — and `integer` therefore
returns `0` as well; in the revised `Dsl` this holds for both values of the
`required` flag, since the field is present. -/
theorem C10_empty_field_is_zero (row : Row) (name : Str) (s : Str)
    (hs : rowGet row name = .strv s) (hws : s.all isWsCU = true) :
    Dsl.float row name = .ok 0 ∧ Dsl.integer row name = .ok 0
      ∧ DslR.float row name false = .ok 0 ∧ DslR.float row name true = .ok 0
      ∧ DslR.integer row name false = .ok 0 ∧ DslR.integer row name true = .ok 0 := by
  have hnum : jsNumber (stripCommas s) = some 0 := by
    rw [stripCommas_all_ws hws]
    exact jsNumber_all_ws hws
  have hfloat : Dsl.float row name = .ok 0 := by
    simp [Dsl.float, hs, hnum]
  have hfloatR : ∀ b, DslR.float row name b = .ok 0 := by
    intro b
    simp [DslR.float, DslR.value, Except.bind, hs, jsToString, hnum]
  refine ⟨hfloat, ?_, hfloatR false, hfloatR true, ?_, ?_⟩ <;>
    simp [Dsl.integer, DslR.integer, Except.map, hfloat, hfloatR]

/-- Witness for C10: a row whose `Count` column holds the empty string
converts to zero under every conversion function and both `required`
flags. -/
theorem C10_empty_field_is_zero_witness :
    Dsl.float [(str "Count", .strv [])] (str "Count") = .ok 0
      ∧ Dsl.integer [(str "Count", .strv [])] (str "Count") = .ok 0
      ∧ DslR.float [(str "Count", .strv [])] (str "Count") false = .ok 0
      ∧ DslR.float [(str "Count", .strv [])] (str "Count") true = .ok 0
      ∧ DslR.integer [(str "Count", .strv [])] (str "Count") false = .ok 0
      ∧ DslR.integer [(str "Count", .strv [])] (str "Count") true = .ok 0 :=
  C10_empty_field_is_zero [(str "Count", .strv [])] (str "Count") [] (by decide) (by decide)

/-- Claim C1: when every mapping's formula evaluates without error on a row,
`buildTransformer` produces a record with exactly one entry per distinct
mapping name — its keys are duplicate-free and are exactly the mapping
names — and the value stored under each name is the evaluation result of
the *last* mapping in the set with that name (later mappings overwrite
earlier ones; no accumulation). -/
theorem C1_last_mapping_wins {ε α : Type} (evalF : Str → Row → Except ε α)
    (mappings : List Mapping) (row : Row)
    (h : ∀ m ∈ mappings, ∃ v, evalF m.formula row = .ok v) :
    ∃ rec, buildTransformer evalF mappings row = .ok rec
      ∧ (keysOf rec).Nodup
      ∧ (∀ k, k ∈ keysOf rec ↔ ∃ m ∈ mappings, m.name = k)
      ∧ (∀ k m, mappings.reverse.find? (fun m' => m'.name == k) = some m →
          List.lookup k rec = (evalF m.formula row).toOption) := by
  obtain ⟨rec, hfold, hnodup, hmem, hlookup⟩ :=
    buildTransformer_loop_spec evalF row mappings [] h
  refine ⟨rec, hfold, hnodup (by simp [keysOf]), ?_, ?_⟩
  · intro k
    rw [hmem k]
    simp [keysOf]
  · intro k m hfind
    rw [hlookup k, hfind]

/-- Witness for C1: two mappings target the field `a` and one targets `b`;
with an evaluator that returns each mapping's formula text, the record binds
`a` to the second (`last`) formula targeting it and `b` to its only
formula. -/
theorem C1_last_mapping_wins_witness :
    ∃ rec,
      buildTransformer (fun f (_ : Row) => (Except.ok f : Except Unit Str))
          [⟨str "a", str "first"⟩, ⟨str "a", str "second"⟩, ⟨str "b", str "third"⟩] [] =
        .ok rec
      ∧ (keysOf rec).Nodup
      ∧ (∀ k, k ∈ keysOf rec ↔
          ∃ m ∈ ([⟨str "a", str "first"⟩, ⟨str "a", str "second"⟩,
                  ⟨str "b", str "third"⟩] : List Mapping), m.name = k)
      ∧ (∀ k m,
          ([⟨str "a", str "first"⟩, ⟨str "a", str "second"⟩,
            ⟨str "b", str "third"⟩] : List Mapping).reverse.find?
              (fun m' => m'.name == k) = some m →
          List.lookup k rec =
            (Except.ok m.formula : Except Unit Str).toOption) :=
  C1_last_mapping_wins (fun f (_ : Row) => (Except.ok f : Except Unit Str))
    [⟨str "a", str "first"⟩, ⟨str "a", str "second"⟩, ⟨str "b", str "third"⟩] []
    (fun m _ => ⟨m.formula, rfl⟩)

/-- Claim C7: `titleCase` maps `"iceberg lettuce"` to `"Iceberg Lettuce"`,
and it is idempotent as a partial function: composing it with itself (with
failure propagating) gives the same result as one application — on every
input where a first application succeeds, a second application leaves the
result unchanged. -/
theorem C7_titleCase_idempotent :
    Dsl.titleCase (str "iceberg lettuce") = some (str "Iceberg Lettuce")
      ∧ ∀ s : Str, (Dsl.titleCase s).bind Dsl.titleCase = Dsl.titleCase s := by
  refine ⟨by decide, ?_⟩
  intro s
  by_cases h : ∀ w ∈ jsSplit 32 (s.map toLowerCU), w ≠ []
  · rw [titleCase_eq_some h]
    show Dsl.titleCase (List.intercalate [32] ((jsSplit 32 (s.map toLowerCU)).map capTotal)) = _
    exact titleCase_intercalate_capTotal (jsSplit 32 (s.map toLowerCU))
      (jsSplit_ne_nil 32 (s.map toLowerCU)) h
      (fun w hw => not_mem_of_mem_jsSplit w hw)
      (fun w hw u hu => by
        obtain ⟨d, _, rfl⟩ := List.mem_map.mp (mem_of_mem_jsSplit w hw hu)
        exact toLowerCU_toLowerCU d)
  · push_neg at h
    obtain ⟨w, hw, rfl⟩ := h
    rw [titleCase_eq_none hw]
    rfl

/-- Counterexample to claim C8 as stated: `titleCase` does *not* return a
result on an input with consecutive spaces.  `"a  b"` lower-cases and splits
into `["a", "", "b"]`; on the empty middle word, `word[0]` is `undefined`
and `word[0].toUpperCase()` throws a `TypeError`, so the whole call fails
instead of preserving the double space. -/
theorem C8_counterexample : Dsl.titleCase (str "a  b") = none := by
  decide

/-- Claim C8 amended: a word beginning with a caseless character (one fixed
by upper-casing, e.g. a digit or punctuation) is left unchanged at that
position, and on inputs whose space-split words are all nonempty `titleCase`
returns a result, preserving word count and order; but an input containing
an empty word — consecutive, leading or trailing spaces, or the empty
string — makes `titleCase` throw a `TypeError` instead of preserving the
spacing. -/
theorem C8_titleCase_words_amended :
    (∀ (c : Nat) (cs : Str), toUpperCU c = c → capWord (c :: cs) = some (c :: cs))
      ∧ (∀ s : Str, [] ∈ jsSplit 32 (s.map toLowerCU) → Dsl.titleCase s = none)
      ∧ (∀ s : Str, (∀ w ∈ jsSplit 32 (s.map toLowerCU), w ≠ []) →
          Dsl.titleCase s =
            some (List.intercalate [32]
              ((jsSplit 32 (s.map toLowerCU)).map capTotal))) := by
  refine ⟨?_, ?_, ?_⟩
  · intro c cs hc
    rw [capWord_cons, hc]
  · intro s h
    exact titleCase_eq_none h
  · intro s h
    exact titleCase_eq_some h

/-- Witness for the amended C8: the digit-initial word `"3x"` is unchanged
by the capitalisation step; `"a  b"` (two spaces) fails; `"ab cd"` (no
empty words) succeeds with the words capitalised in place. -/
theorem C8_titleCase_words_amended_witness :
    capWord (str "3x") = some (str "3x")
      ∧ Dsl.titleCase (str "a  b") = none
      ∧ Dsl.titleCase (str "ab cd") =
          some (List.intercalate [32]
            ((jsSplit 32 ((str "ab cd").map toLowerCU)).map capTotal)) :=
  ⟨C8_titleCase_words_amended.1 51 [120] (by decide),
   C8_titleCase_words_amended.2.1 (str "a  b") (by decide),
   C8_titleCase_words_amended.2.2 (str "ab cd") (by decide)⟩

end CsvWrangler
